import Mathlib

/-!
# Verification of the `python-raytracer` core against its specification

This file gives a shallow embedding, over exact real arithmetic, of the
ray-tracing core in `src/main.py`: the vector helpers (`Vector`), the scene
primitives (`Sphere`, `Floor`) with their `get_intersection` / `get_normal`
methods, the soft-shadow sampling loop, the per-light shading computation,
the bounce loop of `Camera.render`, and the final pixel clamping.

Python's global `random()` stream is modelled as an explicit function
`rng : ℕ → ℝ` consumed in call order; Python's float arithmetic is modelled
by exact real arithmetic, with `x ** 0.5` as `Real.sqrt` (the code only
takes roots of non-negative quantities on the paths analysed) and float
powers as `Real.rpow`.
-/

noncomputable section

namespace Raytracer

/-- A 3-component real vector, the model of the Python 3-tuples used
throughout `main.py`. -/
@[ext]
structure Vec3 where
  x : ℝ
  y : ℝ
  z : ℝ

namespace Vector

/-- `Vector.length` from `main.py`: `(x*x + y*y + z*z) ** (1/2)`. -/
def length (v : Vec3) : ℝ :=
  Real.sqrt (v.x * v.x + v.y * v.y + v.z * v.z)

/-- `Vector.normalize` from `main.py`: divide every component by the length. -/
def normalize (v : Vec3) : Vec3 :=
  ⟨v.x / length v, v.y / length v, v.z / length v⟩

/-- `Vector.add` from `main.py`. -/
def add (a b : Vec3) : Vec3 := ⟨a.x + b.x, a.y + b.y, a.z + b.z⟩

/-- `Vector.sub` from `main.py`. -/
def sub (a b : Vec3) : Vec3 := ⟨a.x - b.x, a.y - b.y, a.z - b.z⟩

/-- `Vector.multiply` from `main.py` (component-wise product). -/
def multiply (a b : Vec3) : Vec3 := ⟨a.x * b.x, a.y * b.y, a.z * b.z⟩

/-- `Vector.scale` from `main.py`. -/
def scale (v : Vec3) (s : ℝ) : Vec3 := ⟨v.x * s, v.y * s, v.z * s⟩

/-- `Vector.dot` from `main.py`: `sum(Vector.multiply(vec1, vec2))`. -/
def dot (a b : Vec3) : ℝ :=
  (multiply a b).x + (multiply a b).y + (multiply a b).z

end Vector

/-- The material attributes shared by every `SpatialObject` in `main.py`. -/
structure Material where
  color : Vec3
  specular : ℝ
  reflectivity : ℝ
  roughness : ℝ

/-- The scene primitives implementing `get_intersection`: `Sphere` (origin,
radius, material attributes) and `Floor` (origin, material attributes). -/
inductive Obj where
  | sphere : Vec3 → ℝ → Material → Obj
  | floor : Vec3 → Material → Obj

namespace Obj

/-- The material attributes of a primitive. -/
def material : Obj → Material
  | sphere _ _ m => m
  | floor _ m => m

/-- `self.reflectivity`. -/
def reflectivity (o : Obj) : ℝ := o.material.reflectivity

/-- `self.roughness`. -/
def roughness (o : Obj) : ℝ := o.material.roughness

/-- `self.color`. -/
def color (o : Obj) : Vec3 := o.material.color

/-- `self.specular`. -/
def specular (o : Obj) : ℝ := o.material.specular

end Obj

/-- `get_normal` of `Sphere` (normalized vector from the center to the
point) and of `Floor` (the constant `(0, -1, 0)`). -/
def getNormal : Obj → Vec3 → Vec3
  | Obj.sphere o _ _, p => Vector.normalize (Vector.sub p o)
  | Obj.floor _ _, _ => ⟨0, -1, 0⟩

/-- The value returned by `get_intersection`: the Python triple
`(intersection point, ray bounce direction, self)`. -/
structure Hit where
  point : Vec3
  reflectDir : Vec3
  obj : Obj

/-- `Floor.get_intersection` and `Sphere.get_intersection` from `main.py`,
translated line by line.  `None` becomes `none`.  Note that the sphere code
computes `d = b - (self.radius - c) ** 0.5` (no squares), exactly as in the
source. -/
def getIntersection (o : Obj) (rayDir rayOrigin : Vec3) : Option Hit :=
  match o with
  | Obj.floor forig m =>
    if Vector.dot rayDir ⟨0, 1, 0⟩ ≤ 0 then none
    else
      let difY := forig.y - rayOrigin.y
      let difX := difY / rayDir.y * rayDir.x
      let difZ := difY / rayDir.y * rayDir.z
      let p1 := Vector.add rayOrigin ⟨difX, difY, difZ⟩
      let reflectDir :=
        Vector.sub rayDir (Vector.scale ⟨0, -1, 0⟩ (Vector.dot rayDir ⟨0, -1, 0⟩ * 2))
      some ⟨p1, reflectDir, Obj.floor forig m⟩
  | Obj.sphere sorig radius m =>
    let a := Vector.sub sorig rayOrigin
    let b := Vector.dot a rayDir
    if b < 0 then none
    else
      let c := Real.sqrt (Vector.length a ^ 2 - b * b)
      if radius < c then none
      else
        let d := b - Real.sqrt (radius - c)
        let p := Vector.add rayOrigin (Vector.scale rayDir d)
        let normal := getNormal (Obj.sphere sorig radius m) p
        let reflectDir :=
          Vector.sub rayDir (Vector.scale normal (Vector.dot rayDir normal * 2))
        some ⟨p, reflectDir, Obj.sphere sorig radius m⟩

/-- `Light` from `main.py`: origin and color from the base class plus
`max_distance` and `power`. -/
structure Light where
  origin : Vec3
  color : Vec3
  maxDistance : ℝ
  power : ℝ

/-- The random perturbation vector of one shadow sample:
`[random() * roughness - roughness / 2 for _ in range(3)]`, drawing the
three stream values at indices `i`, `i+1`, `i+2`. -/
def randVec (rng : ℕ → ℝ) (i : ℕ) (rough : ℝ) : Vec3 :=
  ⟨rng i * rough - rough / 2,
   rng (i + 1) * rough - rough / 2,
   rng (i + 2) * rough - rough / 2⟩

/-- `rand_dir = Vector.normalize(Vector.add(light_dir, rand_vec))`. -/
def perturbedDir (rng : ℕ → ℝ) (i : ℕ) (rough : ℝ) (lightDir : Vec3) : Vec3 :=
  Vector.normalize (Vector.add lightDir (randVec rng i rough))

/-- The inner `for shadow_obj in objects` loop of one shadow sample in
`Camera.render`: each object is tested along its own freshly perturbed
direction (the `rand_vec` comprehension sits inside the object loop), and
the loop breaks at the first object that reports a hit.  Returns whether
the sample is blocked together with the next unused rng index. -/
def sampleBlocked (rng : ℕ → ℝ) (rough : ℝ) (lightDir point : Vec3) :
    List Obj → ℕ → Bool × ℕ
  | [], i => (false, i)
  | o :: rest, i =>
    if (getIntersection o (perturbedDir rng i rough lightDir) point).isSome then
      (true, i + 3)
    else
      sampleBlocked rng rough lightDir point rest (i + 3)

/-- The `for sample in range(self.shadow_resolution)` loop of
`Camera.render`: counts the blocked samples, threading the rng index. -/
def blockedCount (rng : ℕ → ℝ) (rough : ℝ) (lightDir point : Vec3)
    (objs : List Obj) : ℕ → ℕ → ℕ × ℕ
  | 0, i => (0, i)
  | n + 1, i =>
    let s := sampleBlocked rng rough lightDir point objs i
    let rest := blockedCount rng rough lightDir point objs n s.2
    ((if s.1 then 1 else 0) + rest.1, rest.2)

/-- `shadow_intensity = 1 - (blocked_cnt / self.shadow_resolution)`. -/
def shadowIntensity (rng : ℕ → ℝ) (rough : ℝ) (lightDir point : Vec3)
    (objs : List Obj) (res i : ℕ) : ℝ :=
  1 - ((blockedCount rng rough lightDir point objs res i).1 : ℝ) / (res : ℝ)

/-- The `for light in lights` loop of `Camera.render`, accumulating
`point_color` and threading the rng index.  Lights beyond `max_distance`
are skipped (`continue`), consuming no randomness. -/
def pointColorAux (objs : List Obj) (rng : ℕ → ℝ) (res : ℕ) (hit : Hit)
    (energy : ℝ) : List Light → Vec3 → ℕ → Vec3 × ℕ
  | [], acc, i => (acc, i)
  | light :: rest, acc, i =>
    let toLight := Vector.sub light.origin hit.point
    let lightDir := Vector.normalize toLight
    if light.maxDistance < Vector.length toLight then
      pointColorAux objs rng res hit energy rest acc i
    else
      let bc := blockedCount rng hit.obj.roughness lightDir hit.point objs res i
      let shadow := 1 - (bc.1 : ℝ) / (res : ℝ)
      let normal := getNormal hit.obj hit.point
      let similarity :=
        (Vector.dot (Vector.normalize toLight) normal / 2 + 0.5) ^ hit.obj.specular
      let distanceRatio := Vector.length toLight / light.maxDistance
      let strength := (1 - distanceRatio) ^ light.power * similarity * energy * shadow
      pointColorAux objs rng res hit energy rest
        (Vector.add acc (Vector.multiply hit.obj.color (Vector.scale light.color strength)))
        bc.2

/-- `point_color` of one bounce: the light loop started from `(0, 0, 0)`. -/
def pointColor (objs : List Obj) (lights : List Light) (rng : ℕ → ℝ) (res : ℕ)
    (hit : Hit) (energy : ℝ) (i : ℕ) : Vec3 × ℕ :=
  pointColorAux objs rng res hit energy lights ⟨0, 0, 0⟩ i

/-- The `intersections` list of one bounce: every object's
`get_intersection`, keeping the hits. -/
def collectHits (objs : List Obj) (rayDir rayOrigin : Vec3) : List Hit :=
  objs.filterMap fun o => getIntersection o rayDir rayOrigin

/-- `min(intersections, key=...)`: the first hit of minimal distance from
the ray origin (Python's `min` keeps the earliest of equal keys). -/
def nearest (rayOrigin : Vec3) : List Hit → Option Hit
  | [] => none
  | h :: hs =>
    some (hs.foldl
      (fun best x =>
        if Vector.length (Vector.sub rayOrigin x.point) <
            Vector.length (Vector.sub rayOrigin best.point) then x else best)
      h)

/-- The `for bounce in range(self.max_bounces)` loop of `Camera.render` for
one pixel: returns the list `reflected_colors`.  `fuel` is the number of
bounces still allowed; the loop breaks when no object intersects the ray. -/
def bounceLoop (objs : List Obj) (lights : List Light) (rng : ℕ → ℝ) (res : ℕ) :
    ℕ → Vec3 → Vec3 → ℝ → ℕ → List Vec3
  | 0, _, _, _, _ => []
  | fuel + 1, dir, org, energy, i =>
    match nearest org (collectHits objs dir org) with
    | none => []
    | some hit =>
      let pc := pointColor objs lights rng res hit energy i
      pc.1 :: bounceLoop objs lights rng res fuel hit.reflectDir hit.point
        (energy * hit.obj.reflectivity) pc.2

/-- Instrumented variant of `bounceLoop` that also records, per bounce, the
`ray_energy` used at that bounce and the object hit.  Its first projection
is proved equal to `bounceLoop` (`bounceLoopE_fst`). -/
def bounceLoopE (objs : List Obj) (lights : List Light) (rng : ℕ → ℝ) (res : ℕ) :
    ℕ → Vec3 → Vec3 → ℝ → ℕ → List (Vec3 × ℝ × Obj)
  | 0, _, _, _, _ => []
  | fuel + 1, dir, org, energy, i =>
    match nearest org (collectHits objs dir org) with
    | none => []
    | some hit =>
      let pc := pointColor objs lights rng res hit energy i
      (pc.1, energy, hit.obj) :: bounceLoopE objs lights rng res fuel hit.reflectDir
        hit.point (energy * hit.obj.reflectivity) pc.2

/-- Python `int(..)`: truncation toward zero. -/
def pyInt (x : ℝ) : ℤ :=
  if 0 ≤ x then ⌊x⌋ else ⌈x⌉

/-- One channel of the final pixel value:
`min(255, int(255 * sum(..) / self.max_bounces))`. -/
def finalizeChannel (s : ℝ) (maxBounces : ℕ) : ℤ :=
  min 255 (pyInt (255 * s / (maxBounces : ℝ)))

/-- The `(r, g, b)` triple written to the canvas for one pixel. -/
def finalizePixel (colors : List Vec3) (maxBounces : ℕ) : ℤ × ℤ × ℤ :=
  (finalizeChannel ((colors.map Vec3.x).sum) maxBounces,
   finalizeChannel ((colors.map Vec3.y).sum) maxBounces,
   finalizeChannel ((colors.map Vec3.z).sum) maxBounces)

/-!  Definitions written from the words of the specification, for the
refinement claim C4 (the spec's description of the shadow test).  They are
deliberately *not* read off the source: `sampleBlockedSpecDesc` perturbs
the light direction once per sample and tests every primitive along that
single direction, as §4.3 of the spec describes. -/

/-- Spec description (§4.3, step 2): one perturbed direction per sample,
queried against every primitive. -/
def sampleBlockedSpecDesc (rng : ℕ → ℝ) (rough : ℝ) (lightDir point : Vec3)
    (objs : List Obj) (i : ℕ) : Bool × ℕ :=
  let dir := perturbedDir rng i rough lightDir
  (objs.any fun o => (getIntersection o dir point).isSome, i + 3)

/-- Spec description: the sample loop built on `sampleBlockedSpecDesc`. -/
def blockedCountSpecDesc (rng : ℕ → ℝ) (rough : ℝ) (lightDir point : Vec3)
    (objs : List Obj) : ℕ → ℕ → ℕ × ℕ
  | 0, i => (0, i)
  | n + 1, i =>
    let s := sampleBlockedSpecDesc rng rough lightDir point objs i
    let rest := blockedCountSpecDesc rng rough lightDir point objs n s.2
    ((if s.1 then 1 else 0) + rest.1, rest.2)

/-- Spec description: `shadow_intensity = 1 - blocked_count / shadow_resolution`
with the blocked count of the spec's single-perturbation sampling. -/
def shadowIntensitySpecDesc (rng : ℕ → ℝ) (rough : ℝ) (lightDir point : Vec3)
    (objs : List Obj) (res i : ℕ) : ℝ :=
  1 - ((blockedCountSpecDesc rng rough lightDir point objs res i).1 : ℝ) / (res : ℝ)

/-- A concrete material record used for the concrete scenes below (the
attribute values play no role in intersection geometry). -/
def matCE : Material := ⟨⟨1/2, 1/2, 1/2⟩, 3/2, 4/5, 1/8⟩

/-- The random stream of the C4 counterexample: `7/8` at index 4 and `1/2`
elsewhere; with `roughness = 4` this perturbs by `(0, 3/2, 0)` in the second
draw and not at all in the first. -/
def rngCE : ℕ → ℝ := fun i => if i = 4 then 7 / 8 else 1 / 2

/-- First primitive of the C4 scene. -/
def floorObjA : Obj := Obj.floor ⟨0, 0, 0⟩ matCE

/-- Second primitive of the C4 scene. -/
def floorObjB : Obj := Obj.floor ⟨0, 5, 0⟩ matCE

/-!  Helper lemmas about square roots of numeric literals, used to evaluate
the embedded functions on concrete inputs. -/

theorem sqrt_of_sq {a b : ℝ} (hb : 0 ≤ b) (h : b ^ 2 = a) : Real.sqrt a = b := by
  rw [← h, Real.sqrt_sq hb]

theorem sqrt_hundred : Real.sqrt 100 = 10 :=
  sqrt_of_sq (by norm_num) (by norm_num)

theorem sqrt_four : Real.sqrt 4 = 2 :=
  sqrt_of_sq (by norm_num) (by norm_num)

theorem sqrt_twentyfive : Real.sqrt 25 = 5 :=
  sqrt_of_sq (by norm_num) (by norm_num)

theorem sqrt_sixtyfour : Real.sqrt 64 = 8 :=
  sqrt_of_sq (by norm_num) (by norm_num)

theorem sqrt_quarter : Real.sqrt (1 / 4) = 1 / 2 :=
  sqrt_of_sq (by norm_num) (by norm_num)

theorem sqrt_sixteen : Real.sqrt 16 = 4 :=
  sqrt_of_sq (by norm_num) (by norm_num)

/-- C8: for every vector of non-zero length, `normalize` returns a vector of
length exactly 1 (over real arithmetic), and `normalize` is idempotent. -/
theorem normalize_unit_and_idempotent (v : Vec3) (hv : Vector.length v ≠ 0) :
    Vector.length (Vector.normalize v) = 1 ∧
      Vector.normalize (Vector.normalize v) = Vector.normalize v := by
  have hS : 0 ≤ v.x * v.x + v.y * v.y + v.z * v.z := by
    nlinarith [mul_self_nonneg v.x, mul_self_nonneg v.y, mul_self_nonneg v.z]
  have hSq : Vector.length v * Vector.length v = v.x * v.x + v.y * v.y + v.z * v.z :=
    Real.mul_self_sqrt hS
  have hSne : v.x * v.x + v.y * v.y + v.z * v.z ≠ 0 := by
    intro h0
    exact hv (by simp [Vector.length, h0])
  have hlen1 : Vector.length (Vector.normalize v) = 1 := by
    have harg : (v.x / Vector.length v) * (v.x / Vector.length v) +
        (v.y / Vector.length v) * (v.y / Vector.length v) +
        (v.z / Vector.length v) * (v.z / Vector.length v) = 1 := by
      field_simp [hv]
      linarith [hSq]
    simp only [Vector.normalize, Vector.length] at harg ⊢
    rw [harg, Real.sqrt_one]
  refine ⟨hlen1, ?_⟩
  have : Vector.normalize (Vector.normalize v) =
      ⟨(Vector.normalize v).x / Vector.length (Vector.normalize v),
       (Vector.normalize v).y / Vector.length (Vector.normalize v),
       (Vector.normalize v).z / Vector.length (Vector.normalize v)⟩ := rfl
  rw [this, hlen1]
  ext <;> simp

/-- C10: every hit returned by `Floor.get_intersection` has its y-coordinate
exactly equal to the y-coordinate of the floor's origin. -/
theorem floor_hit_exact_y (fo : Vec3) (m : Material) (dir org : Vec3) (h : Hit)
    (hs : getIntersection (Obj.floor fo m) dir org = some h) : h.point.y = fo.y := by
  simp only [getIntersection] at hs
  split_ifs at hs
  rw [Option.some.injEq] at hs
  rw [← hs]
  simp [Vector.add]

/-- Witness for C10: a concrete floor hit, whose y-coordinate the theorem
pins to the plane's y-coordinate. -/
theorem floor_hit_exact_y_witness :
    ∃ h : Hit, getIntersection (Obj.floor ⟨0, 16, 0⟩ matCE) ⟨1, 2, 0⟩ ⟨3, 4, 5⟩ = some h ∧
      h.point.y = (⟨0, 16, 0⟩ : Vec3).y := by
  have hs : getIntersection (Obj.floor ⟨0, 16, 0⟩ matCE) ⟨1, 2, 0⟩ ⟨3, 4, 5⟩ =
      some ⟨⟨9, 16, 5⟩, ⟨1, -2, 0⟩, Obj.floor ⟨0, 16, 0⟩ matCE⟩ := by
    simp only [getIntersection, Vector.dot, Vector.multiply, Vector.add, Vector.sub,
      Vector.scale]
    norm_num
  exact ⟨_, hs, floor_hit_exact_y _ _ _ _ _ hs⟩

/-- C7: a ray whose direction has non-positive dot product with world up
`(0, 1, 0)` never hits the floor; with positive dot product the hit point is
the parametric intersection `ray_origin + t * ray_dir` with
`t = (plane_y - ray_origin.y) / ray_dir.y`. -/
theorem floor_one_sided (fo : Vec3) (m : Material) (dir org : Vec3) :
    (Vector.dot dir ⟨0, 1, 0⟩ ≤ 0 → getIntersection (Obj.floor fo m) dir org = none) ∧
    (0 < Vector.dot dir ⟨0, 1, 0⟩ →
      ∃ h : Hit, getIntersection (Obj.floor fo m) dir org = some h ∧
        h.point = Vector.add org (Vector.scale dir ((fo.y - org.y) / dir.y))) := by
  have hdot : Vector.dot dir ⟨0, 1, 0⟩ = dir.y := by
    simp [Vector.dot, Vector.multiply]
  constructor
  · intro hle
    simp only [getIntersection]
    rw [if_pos hle]
  · intro hpos
    have hy : 0 < dir.y := hdot ▸ hpos
    refine ⟨⟨Vector.add org ⟨(fo.y - org.y) / dir.y * dir.x, fo.y - org.y,
        (fo.y - org.y) / dir.y * dir.z⟩,
        Vector.sub dir (Vector.scale ⟨0, -1, 0⟩ (Vector.dot dir ⟨0, -1, 0⟩ * 2)),
        Obj.floor fo m⟩, ?_, ?_⟩
    · simp only [getIntersection]
      rw [if_neg (not_le.mpr hpos)]
    · ext
      · simp only [Vector.add, Vector.scale]
        ring
      · simp only [Vector.add, Vector.scale]
        field_simp
      · simp only [Vector.add, Vector.scale]
        ring

/-- Witness for C7: both branches at concrete rays against the floor plane
`y = 16`. -/
theorem floor_one_sided_witness :
    (getIntersection (Obj.floor ⟨0, 16, 0⟩ matCE) ⟨1, -1, 0⟩ ⟨0, 0, 0⟩ = none) ∧
    (∃ h : Hit, getIntersection (Obj.floor ⟨0, 16, 0⟩ matCE) ⟨0, 1, 0⟩ ⟨2, 0, 3⟩ = some h ∧
      h.point = Vector.add ⟨2, 0, 3⟩ (Vector.scale ⟨0, 1, 0⟩
        (((⟨0, 16, 0⟩ : Vec3).y - (⟨2, 0, 3⟩ : Vec3).y) / (⟨0, 1, 0⟩ : Vec3).y))) := by
  constructor
  · exact (floor_one_sided ⟨0, 16, 0⟩ matCE ⟨1, -1, 0⟩ ⟨0, 0, 0⟩).1
      (by norm_num [Vector.dot, Vector.multiply])
  · exact (floor_one_sided ⟨0, 16, 0⟩ matCE ⟨0, 1, 0⟩ ⟨2, 0, 3⟩).2
      (by norm_num [Vector.dot, Vector.multiply])

/-- C2 counterexample: with the ray origin `(0, 20, 0)` on the far side of
the floor plane `y = 16` and direction `(0, 1, 0)`, `Floor.get_intersection`
returns the hit `(0, 16, 0)`, which lies at parameter `-4 < 0` along the
ray — a hit behind the origin is returned rather than "no hit". -/
theorem floor_hit_behind_origin_cex :
    (∃ h : Hit, getIntersection (Obj.floor ⟨0, 16, 0⟩ matCE) ⟨0, 1, 0⟩ ⟨0, 20, 0⟩ = some h ∧
      h.point = ⟨0, 16, 0⟩) ∧
    (⟨0, 16, 0⟩ : Vec3) = Vector.add ⟨0, 20, 0⟩ (Vector.scale ⟨0, 1, 0⟩ (-4)) ∧
    (-4 : ℝ) < 0 := by
  refine ⟨⟨⟨⟨0, 16, 0⟩, ⟨0, -1, 0⟩, Obj.floor ⟨0, 16, 0⟩ matCE⟩, ?_, rfl⟩, ?_, by norm_num⟩
  · simp only [getIntersection, Vector.dot, Vector.multiply, Vector.add, Vector.sub,
      Vector.scale]
    norm_num
  · simp only [Vector.add, Vector.scale]
    norm_num

/-- C2 amended: the actual "no hit" conditions of the two primitives — the
floor misses exactly when `dot(ray_dir, (0,1,0)) ≤ 0`, the sphere exactly
when `b < 0` or `c > radius`; neither primitive checks the sign of the hit
parameter. -/
theorem intersection_none_characterization :
    (∀ (fo : Vec3) (m : Material) (dir org : Vec3),
        getIntersection (Obj.floor fo m) dir org = none ↔
          Vector.dot dir ⟨0, 1, 0⟩ ≤ 0) ∧
    (∀ (so : Vec3) (r : ℝ) (m : Material) (dir org : Vec3),
        getIntersection (Obj.sphere so r m) dir org = none ↔
          Vector.dot (Vector.sub so org) dir < 0 ∨
            r < Real.sqrt (Vector.length (Vector.sub so org) ^ 2 -
              Vector.dot (Vector.sub so org) dir * Vector.dot (Vector.sub so org) dir)) := by
  constructor
  · intro fo m dir org
    simp only [getIntersection]
    split_ifs with h1 <;> simp [h1]
  · intro so r m dir org
    simp only [getIntersection]
    split_ifs with h1 h2
    · simp [h1]
    · simp [h1, h2]
    · simp [h1, h2]

/-- Witness for C2 (amended): concrete rays that miss via each guard. -/
theorem intersection_none_characterization_witness :
    getIntersection (Obj.floor ⟨0, 16, 0⟩ matCE) ⟨0, -1, 0⟩ ⟨0, 0, 0⟩ = none ∧
    getIntersection (Obj.sphere ⟨0, 0, 10⟩ 4 matCE) ⟨0, 0, -1⟩ ⟨0, 0, 0⟩ = none := by
  constructor
  · exact (intersection_none_characterization.1 ⟨0, 16, 0⟩ matCE ⟨0, -1, 0⟩ ⟨0, 0, 0⟩).mpr
      (by norm_num [Vector.dot, Vector.multiply])
  · exact (intersection_none_characterization.2 ⟨0, 0, 10⟩ 4 matCE ⟨0, 0, -1⟩ ⟨0, 0, 0⟩).mpr
      (Or.inl (by norm_num [Vector.dot, Vector.multiply, Vector.sub]))

/-- Each shadow sample increments the blocked count at most once (the inner
object loop breaks at the first blocking object), so the count is bounded
by the number of samples. -/
theorem blockedCount_le (rng : ℕ → ℝ) (rough : ℝ) (ld p : Vec3) (objs : List Obj) :
    ∀ res i, (blockedCount rng rough ld p objs res i).1 ≤ res := by
  intro res
  induction res with
  | zero => intro i; simp [blockedCount]
  | succ n ih =>
    intro i
    simp only [blockedCount]
    have := ih (sampleBlocked rng rough ld p objs i).2
    split_ifs <;> omega

/-- C9: the blocked-sample count never exceeds `shadow_resolution`, hence
`shadow_intensity = 1 - blocked_cnt / shadow_resolution` lies in `[0, 1]`. -/
theorem shadow_intensity_range (rng : ℕ → ℝ) (rough : ℝ) (ld p : Vec3)
    (objs : List Obj) (res i : ℕ) (hres : 0 < res) :
    (blockedCount rng rough ld p objs res i).1 ≤ res ∧
    0 ≤ shadowIntensity rng rough ld p objs res i ∧
    shadowIntensity rng rough ld p objs res i ≤ 1 := by
  have hle := blockedCount_le rng rough ld p objs res i
  have hresR : (0 : ℝ) < (res : ℝ) := by exact_mod_cast hres
  have hcnt : (0 : ℝ) ≤ ((blockedCount rng rough ld p objs res i).1 : ℝ) := by positivity
  have hleR : ((blockedCount rng rough ld p objs res i).1 : ℝ) ≤ (res : ℝ) := by
    exact_mod_cast hle
  have hdiv0 : 0 ≤ ((blockedCount rng rough ld p objs res i).1 : ℝ) / (res : ℝ) := by
    positivity
  have hdiv1 : ((blockedCount rng rough ld p objs res i).1 : ℝ) / (res : ℝ) ≤ 1 :=
    (div_le_one hresR).mpr hleR
  refine ⟨hle, ?_, ?_⟩
  · simp only [shadowIntensity]; linarith
  · simp only [shadowIntensity]; linarith

/-- Witness for C9 at a concrete (empty) scene with 2 shadow samples. -/
theorem shadow_intensity_range_witness :
    0 < 2 ∧ 0 ≤ shadowIntensity (fun _ => 0) 0 ⟨0, 0, 0⟩ ⟨0, 0, 0⟩ [] 2 0 ∧
      shadowIntensity (fun _ => 0) 0 ⟨0, 0, 0⟩ ⟨0, 0, 0⟩ [] 2 0 ≤ 1 :=
  ⟨by norm_num,
   (shadow_intensity_range (fun _ => 0) 0 ⟨0, 0, 0⟩ ⟨0, 0, 0⟩ [] 2 0 (by norm_num)).2⟩

/-- C3: channels are finalized as `min(255, int(255 * sum / max_bounces))`.
Under the data-model invariant that every recorded bounce color is
non-negative, (i) every channel written lies in `[0, 255]`, (ii) the value
depends only on the channel sums divided by `max_bounces` — padding the
bounce list with black colors (early-terminated bounces) does not change
the pixel, i.e. the divisor is `max_bounces`, not the bounce count taken —
and (iii) the computation agrees with the spec's
"scale by 255, clamp to [0, 255], truncate" description. -/
theorem pixel_finalize_range (colors : List Vec3) (mb : ℕ) (hmb : 0 < mb)
    (hnn : ∀ c ∈ colors, 0 ≤ c.x ∧ 0 ≤ c.y ∧ 0 ≤ c.z) :
    (0 ≤ (finalizePixel colors mb).1 ∧ (finalizePixel colors mb).1 ≤ 255 ∧
     0 ≤ (finalizePixel colors mb).2.1 ∧ (finalizePixel colors mb).2.1 ≤ 255 ∧
     0 ≤ (finalizePixel colors mb).2.2 ∧ (finalizePixel colors mb).2.2 ≤ 255) ∧
    (∀ k : ℕ, finalizePixel (colors ++ List.replicate k ⟨0, 0, 0⟩) mb =
      finalizePixel colors mb) ∧
    (∀ s : ℝ, 0 ≤ s →
      finalizeChannel s mb = max 0 (min 255 (pyInt (255 * s / (mb : ℝ))))) := by
  have hmbR : (0 : ℝ) < (mb : ℝ) := by exact_mod_cast hmb
  have hch : ∀ s : ℝ, 0 ≤ s → 0 ≤ finalizeChannel s mb ∧ finalizeChannel s mb ≤ 255 := by
    intro s hs
    have harg : 0 ≤ 255 * s / (mb : ℝ) := by positivity
    have hpy : 0 ≤ pyInt (255 * s / (mb : ℝ)) := by
      simp only [pyInt, if_pos harg]
      exact Int.le_floor.mpr (by exact_mod_cast harg)
    constructor
    · simp only [finalizeChannel]
      exact le_min (by norm_num) hpy
    · simp only [finalizeChannel]
      exact min_le_left _ _
  have hsx : 0 ≤ (colors.map Vec3.x).sum :=
    List.sum_nonneg (by
      intro a ha
      obtain ⟨c, hc, rfl⟩ := List.mem_map.mp ha
      exact (hnn c hc).1)
  have hsy : 0 ≤ (colors.map Vec3.y).sum :=
    List.sum_nonneg (by
      intro a ha
      obtain ⟨c, hc, rfl⟩ := List.mem_map.mp ha
      exact (hnn c hc).2.1)
  have hsz : 0 ≤ (colors.map Vec3.z).sum :=
    List.sum_nonneg (by
      intro a ha
      obtain ⟨c, hc, rfl⟩ := List.mem_map.mp ha
      exact (hnn c hc).2.2)
  refine ⟨⟨(hch _ hsx).1, (hch _ hsx).2, (hch _ hsy).1, (hch _ hsy).2,
      (hch _ hsz).1, (hch _ hsz).2⟩, ?_, ?_⟩
  · intro k
    simp [finalizePixel, List.map_append, List.sum_append]
  · intro s hs
    have harg : 0 ≤ 255 * s / (mb : ℝ) := by positivity
    have hpy : 0 ≤ pyInt (255 * s / (mb : ℝ)) := by
      simp only [pyInt, if_pos harg]
      exact Int.le_floor.mpr (by exact_mod_cast harg)
    simp only [finalizeChannel]
    rw [max_eq_right (le_min (by norm_num) hpy)]

/-- Witness for C3 at a concrete one-bounce color list and `max_bounces = 5`. -/
theorem pixel_finalize_range_witness :
    0 < 5 ∧
      (0 ≤ (finalizePixel [⟨1/2, 0, 2⟩] 5).1 ∧ (finalizePixel [⟨1/2, 0, 2⟩] 5).1 ≤ 255 ∧
       0 ≤ (finalizePixel [⟨1/2, 0, 2⟩] 5).2.1 ∧ (finalizePixel [⟨1/2, 0, 2⟩] 5).2.1 ≤ 255 ∧
       0 ≤ (finalizePixel [⟨1/2, 0, 2⟩] 5).2.2 ∧ (finalizePixel [⟨1/2, 0, 2⟩] 5).2.2 ≤ 255) :=
  ⟨by norm_num,
   (pixel_finalize_range [⟨1/2, 0, 2⟩] 5 (by norm_num)
     (by
       intro c hc
       rw [List.mem_singleton] at hc
       rw [hc]
       norm_num)).1⟩

/-- Concrete evaluation of the sphere intersection code: a ray from the
origin aimed straight at the center `(0, 0, 10)` of a sphere of radius 4
returns the hit point `(0, 0, 8)` (the code's `d = b - sqrt(radius - c)`
gives `10 - sqrt(4) = 8`). -/
theorem sphereHitEval :
    getIntersection (Obj.sphere ⟨0, 0, 10⟩ 4 matCE) ⟨0, 0, 1⟩ ⟨0, 0, 0⟩ =
      some ⟨⟨0, 0, 8⟩, ⟨0, 0, -1⟩, Obj.sphere ⟨0, 0, 10⟩ 4 matCE⟩ := by
  norm_num [getIntersection, getNormal, Vector.sub, Vector.dot, Vector.multiply,
    Vector.add, Vector.scale, Vector.length, Vector.normalize, sqrt_hundred, sqrt_four,
    Real.sqrt_zero]

/-- C1: the code's sphere-hit distance disagrees with the documented
formula.  A ray from the origin aimed at the center of a sphere of radius 4
at distance 10 is returned by the code at the point `(0, 0, 8)` (distance 8
from the ray origin), while `d = b - sqrt(radius² - c²)` gives the point
`ray_origin + 6·ray_dir = (0, 0, 6)` at distance `center_distance - radius
= 6`: the code computes `d = b - sqrt(radius - c)`, omitting both squares. -/
theorem sphere_hit_distance_bug :
    getIntersection (Obj.sphere ⟨0, 0, 10⟩ 4 matCE) ⟨0, 0, 1⟩ ⟨0, 0, 0⟩ =
      some ⟨⟨0, 0, 8⟩, ⟨0, 0, -1⟩, Obj.sphere ⟨0, 0, 10⟩ 4 matCE⟩ ∧
    (⟨0, 0, 8⟩ : Vec3) ≠ Vector.add ⟨0, 0, 0⟩ (Vector.scale ⟨0, 0, 1⟩
      (Vector.dot (Vector.sub ⟨0, 0, 10⟩ ⟨0, 0, 0⟩) ⟨0, 0, 1⟩ - Real.sqrt (4 ^ 2 - 0 ^ 2))) ∧
    Vector.length (Vector.sub (⟨0, 0, 8⟩ : Vec3) ⟨0, 0, 0⟩) ≠
      Vector.length (Vector.sub (⟨0, 0, 10⟩ : Vec3) ⟨0, 0, 0⟩) - 4 := by
  refine ⟨sphereHitEval, ?_, ?_⟩
  · intro heq
    rw [Vec3.ext_iff] at heq
    simp only [Vector.add, Vector.scale, Vector.sub, Vector.dot, Vector.multiply] at heq
    rw [show ((4:ℝ) ^ 2 - 0 ^ 2) = 16 by norm_num, sqrt_sixteen] at heq
    norm_num at heq
  · simp only [Vector.length, Vector.sub]
    rw [show ((0:ℝ) - 0) * (0 - 0) + (0 - 0) * (0 - 0) + (8 - 0) * (8 - 0) = 64 by norm_num,
      show ((0:ℝ) - 0) * (0 - 0) + (0 - 0) * (0 - 0) + (10 - 0) * (10 - 0) = 100 by norm_num,
      sqrt_sixtyfour, sqrt_hundred]
    norm_num

/-- The first perturbed direction of the C4 scene is unperturbed. -/
theorem perturbedDirCE0 : perturbedDir rngCE 0 4 ⟨0, -1, 0⟩ = ⟨0, -1, 0⟩ := by
  simp only [perturbedDir, randVec, rngCE]
  norm_num [Vector.add, Vector.normalize, Vector.length, Real.sqrt_one]

/-- The second perturbed direction of the C4 scene flips to point upward. -/
theorem perturbedDirCE3 : perturbedDir rngCE 3 4 ⟨0, -1, 0⟩ = ⟨0, 1, 0⟩ := by
  simp only [perturbedDir, randVec, rngCE]
  norm_num [Vector.add, Vector.normalize, Vector.length, sqrt_quarter, sqrt_four]

/-- Neither floor of the C4 scene intersects the unperturbed direction. -/
theorem floorACE_none : getIntersection floorObjA ⟨0, -1, 0⟩ ⟨0, 10, 0⟩ = none := by
  norm_num [floorObjA, getIntersection, Vector.dot, Vector.multiply]

/-- Neither floor of the C4 scene intersects the unperturbed direction. -/
theorem floorBCE_none : getIntersection floorObjB ⟨0, -1, 0⟩ ⟨0, 10, 0⟩ = none := by
  norm_num [floorObjB, getIntersection, Vector.dot, Vector.multiply]

/-- The second floor of the C4 scene does intersect the perturbed direction. -/
theorem floorBCE_some : (getIntersection floorObjB ⟨0, 1, 0⟩ ⟨0, 10, 0⟩).isSome = true := by
  norm_num [floorObjB, getIntersection, Vector.dot, Vector.multiply]

/-- C4 counterexample: in a two-floor scene with one shadow sample, the
code's shadow intensity (fresh perturbation per object tested) is 0 while
the spec-described shadow test (one perturbation per sample, queried
against every primitive) gives 1: the code does not query every primitive
along a single perturbed direction per sample. -/
theorem shadow_sampling_cex :
    shadowIntensity rngCE 4 ⟨0, -1, 0⟩ ⟨0, 10, 0⟩ [floorObjA, floorObjB] 1 0 = 0 ∧
    shadowIntensitySpecDesc rngCE 4 ⟨0, -1, 0⟩ ⟨0, 10, 0⟩ [floorObjA, floorObjB] 1 0 = 1 ∧
    shadowIntensity rngCE 4 ⟨0, -1, 0⟩ ⟨0, 10, 0⟩ [floorObjA, floorObjB] 1 0 ≠
      shadowIntensitySpecDesc rngCE 4 ⟨0, -1, 0⟩ ⟨0, 10, 0⟩ [floorObjA, floorObjB] 1 0 := by
  have hcode : shadowIntensity rngCE 4 ⟨0, -1, 0⟩ ⟨0, 10, 0⟩ [floorObjA, floorObjB] 1 0 = 0 := by
    simp only [shadowIntensity, blockedCount, sampleBlocked, perturbedDirCE0, floorACE_none]
    rw [perturbedDirCE3]
    norm_num [floorBCE_some]
  have hspec : shadowIntensitySpecDesc rngCE 4 ⟨0, -1, 0⟩ ⟨0, 10, 0⟩ [floorObjA, floorObjB] 1 0
      = 1 := by
    simp only [shadowIntensitySpecDesc, blockedCountSpecDesc, sampleBlockedSpecDesc,
      perturbedDirCE0, List.any_cons, List.any_nil, floorACE_none, floorBCE_none]
    norm_num
  exact ⟨hcode, hspec, by rw [hcode, hspec]; norm_num⟩

/-- C4 amended: within one shadow sample the object loop draws a *fresh*
random perturbation for each object tested, querying each object along its
own perturbed direction, and stops at the first object reporting a hit: the
sample is blocked exactly when some object's intersection along its own
perturbation (indices advancing by 3 per object) reports a hit while all
earlier objects, each along its own perturbation, reported none. -/
theorem sample_fresh_perturbation (rng : ℕ → ℝ) (rough : ℝ) (ld p : Vec3) :
    ∀ (objs : List Obj) (i : ℕ),
      (sampleBlocked rng rough ld p objs i).1 = true ↔
        ∃ j, ∃ hj : j < objs.length,
          (getIntersection (objs.get ⟨j, hj⟩) (perturbedDir rng (i + 3 * j) rough ld)
            p).isSome = true ∧
          ∀ k (hk : k < j),
            (getIntersection (objs.get ⟨k, hk.trans hj⟩) (perturbedDir rng (i + 3 * k) rough ld)
              p).isSome = false := by
  intro objs
  induction objs with
  | nil => intro i; simp [sampleBlocked]
  | cons o rest ih =>
    intro i
    simp only [sampleBlocked]
    by_cases hblocked : (getIntersection o (perturbedDir rng i rough ld) p).isSome = true
    · rw [if_pos hblocked]
      refine iff_of_true rfl ⟨0, by simp, ?_, ?_⟩
      · simpa using hblocked
      · intro k hk
        omega
    · rw [if_neg hblocked]
      rw [ih (i + 3)]
      constructor
      · rintro ⟨j, hj, hhit, hmin⟩
        refine ⟨j + 1, by simpa using Nat.succ_lt_succ hj, ?_, ?_⟩
        · rw [show i + 3 * (j + 1) = i + 3 + 3 * j by ring]
          simpa using hhit
        · intro k hk
          cases k with
          | zero =>
            simpa using eq_false_of_ne_true hblocked
          | succ k' =>
            rw [show i + 3 * (k' + 1) = i + 3 + 3 * k' by ring]
            simpa using hmin k' (by omega)
      · rintro ⟨j, hj, hhit, hmin⟩
        cases j with
        | zero =>
          rw [show i + 3 * 0 = i by ring] at hhit
          simp only [List.get] at hhit
          exact absurd hhit hblocked
        | succ j' =>
          have hj' : j' < rest.length := by
            simp only [List.length_cons] at hj
            omega
          refine ⟨j', hj', ?_, ?_⟩
          · rw [show i + 3 + 3 * j' = i + 3 * (j' + 1) by ring]
            simpa using hhit
          · intro k hk
            have := hmin (k + 1) (by omega)
            rw [show i + 3 * (k + 1) = i + 3 + 3 * k by ring] at this
            simpa using this

/-- Witness for C4 (amended) at the concrete two-floor scene: the second
object blocks along its own fresh perturbation while the first does not. -/
theorem sample_fresh_perturbation_witness :
    (sampleBlocked rngCE 4 ⟨0, -1, 0⟩ ⟨0, 10, 0⟩ [floorObjA, floorObjB] 0).1 = true := by
  rw [sample_fresh_perturbation rngCE 4 ⟨0, -1, 0⟩ ⟨0, 10, 0⟩ [floorObjA, floorObjB] 0]
  refine ⟨1, by norm_num, ?_, ?_⟩
  · rw [show (0 + 3 * 1 : ℕ) = 3 by norm_num]
    simpa [perturbedDirCE3] using floorBCE_some
  · intro k hk
    have hk0 : k = 0 := by omega
    subst hk0
    rw [show (0 + 3 * 0 : ℕ) = 0 by norm_num]
    simpa [perturbedDirCE0] using congrArg Option.isSome floorACE_none

/-- A vector with non-zero square sum normalizes to a vector whose dot
product with itself is exactly 1. -/
theorem dot_normalize_self (v : Vec3) (hv : v.x * v.x + v.y * v.y + v.z * v.z ≠ 0) :
    Vector.dot (Vector.normalize v) (Vector.normalize v) = 1 := by
  have hS : 0 ≤ v.x * v.x + v.y * v.y + v.z * v.z := by
    nlinarith [mul_self_nonneg v.x, mul_self_nonneg v.y, mul_self_nonneg v.z]
  have hSpos : 0 < v.x * v.x + v.y * v.y + v.z * v.z := lt_of_le_of_ne hS (Ne.symm hv)
  have hlpos : 0 < Vector.length v := Real.sqrt_pos.mpr hSpos
  have hSq : Vector.length v * Vector.length v = v.x * v.x + v.y * v.y + v.z * v.z :=
    Real.mul_self_sqrt hS
  simp only [Vector.dot, Vector.multiply, Vector.normalize]
  field_simp
  linarith [hSq]

/-- C6: for every hit returned by `Floor.get_intersection` or
`Sphere.get_intersection` (for the sphere: with a unit ray direction and a
positive radius), the reflected direction `r` satisfies
`dot(r, n) = -dot(d, n)` against the surface normal `n` at the hit point,
exactly over real arithmetic. -/
theorem reflection_law :
    (∀ (fo : Vec3) (m : Material) (dir org : Vec3) (h : Hit),
        getIntersection (Obj.floor fo m) dir org = some h →
        Vector.dot h.reflectDir (getNormal (Obj.floor fo m) h.point) =
          -Vector.dot dir (getNormal (Obj.floor fo m) h.point)) ∧
    (∀ (so : Vec3) (r : ℝ) (m : Material) (dir org : Vec3) (h : Hit),
        Vector.dot dir dir = 1 → 0 < r →
        getIntersection (Obj.sphere so r m) dir org = some h →
        Vector.dot h.reflectDir (getNormal (Obj.sphere so r m) h.point) =
          -Vector.dot dir (getNormal (Obj.sphere so r m) h.point)) := by
  constructor
  · intro fo m dir org h hs
    simp only [getIntersection] at hs
    split_ifs at hs
    rw [Option.some.injEq] at hs
    subst hs
    dsimp only [getNormal]
    simp only [Vector.dot, Vector.multiply, Vector.sub, Vector.scale]
    ring
  · intro so r m dir org h hunit hr hs
    simp only [getIntersection] at hs
    split_ifs at hs with h1 h2
    rw [Option.some.injEq] at hs
    subst hs
    dsimp only [getNormal]
    have hunit' : dir.x * dir.x + dir.y * dir.y + dir.z * dir.z = 1 := by
      simpa [Vector.dot, Vector.multiply] using hunit
    set a := Vector.sub so org with ha
    set b := Vector.dot a dir with hb
    set c := Real.sqrt (Vector.length a ^ 2 - b * b) with hc
    set s := Real.sqrt (r - c) with hsdef
    have hcr : c ≤ r := not_lt.mp h2
    have hc0 : 0 ≤ c := hc ▸ Real.sqrt_nonneg _
    have hbexp : b = a.x * dir.x + a.y * dir.y + a.z * dir.z := by
      rw [hb]; simp [Vector.dot, Vector.multiply]
    have hSa : 0 ≤ a.x * a.x + a.y * a.y + a.z * a.z := by
      nlinarith [mul_self_nonneg a.x, mul_self_nonneg a.y, mul_self_nonneg a.z]
    have hlen2 : Vector.length a ^ 2 = a.x * a.x + a.y * a.y + a.z * a.z := by
      rw [Vector.length, Real.sq_sqrt hSa]
    have hCS : 0 ≤ Vector.length a ^ 2 - b * b := by
      rw [hlen2, hbexp]
      nlinarith [sq_nonneg (a.x * dir.y - a.y * dir.x), sq_nonneg (a.x * dir.z - a.z * dir.x),
        sq_nonneg (a.y * dir.z - a.z * dir.y), hunit']
    have hc2 : c * c = a.x * a.x + a.y * a.y + a.z * a.z - b * b := by
      rw [hc, Real.mul_self_sqrt hCS, hlen2]
    have hs2 : s * s = r - c := by
      rw [hsdef, Real.mul_self_sqrt (sub_nonneg.mpr hcr)]
    set L := Vector.sub (Vector.add org (Vector.scale dir (b - s))) so with hL
    have hLx : L.x = dir.x * (b - s) - a.x := by
      rw [hL, ha]; simp only [Vector.sub, Vector.add, Vector.scale]; ring
    have hLy : L.y = dir.y * (b - s) - a.y := by
      rw [hL, ha]; simp only [Vector.sub, Vector.add, Vector.scale]; ring
    have hLz : L.z = dir.z * (b - s) - a.z := by
      rw [hL, ha]; simp only [Vector.sub, Vector.add, Vector.scale]; ring
    have hLL : L.x * L.x + L.y * L.y + L.z * L.z = (r - c) + c * c := by
      rw [hLx, hLy, hLz]
      linear_combination ((b - s) * (b - s)) * hunit' + (2 * (b - s)) * hbexp - hc2 + hs2
    have hLpos : 0 < L.x * L.x + L.y * L.y + L.z * L.z := by
      rw [hLL]
      rcases eq_or_lt_of_le hcr with heq | hlt
      · rw [heq]
        have := mul_pos hr hr
        linarith
      · have := mul_self_nonneg c
        linarith
    have hLne : L.x * L.x + L.y * L.y + L.z * L.z ≠ 0 := ne_of_gt hLpos
    have hnn : Vector.dot (Vector.normalize L) (Vector.normalize L) = 1 :=
      dot_normalize_self L hLne
    have hexp : Vector.dot
        (Vector.sub dir (Vector.scale (Vector.normalize L)
          (Vector.dot dir (Vector.normalize L) * 2))) (Vector.normalize L) =
        Vector.dot dir (Vector.normalize L) -
          Vector.dot dir (Vector.normalize L) * 2 *
            Vector.dot (Vector.normalize L) (Vector.normalize L) := by
      simp only [Vector.dot, Vector.multiply, Vector.sub, Vector.scale]
      ring
    rw [hexp, hnn]
    ring

/-- Witness for C6: the reflection law at a concrete floor hit and a
concrete sphere hit. -/
theorem reflection_law_witness :
    (∃ h : Hit, getIntersection (Obj.floor ⟨0, 16, 0⟩ matCE) ⟨0, 1, 0⟩ ⟨1, 0, 2⟩ = some h ∧
      Vector.dot h.reflectDir (getNormal (Obj.floor ⟨0, 16, 0⟩ matCE) h.point) =
        -Vector.dot ⟨0, 1, 0⟩ (getNormal (Obj.floor ⟨0, 16, 0⟩ matCE) h.point)) ∧
    (∃ h : Hit, getIntersection (Obj.sphere ⟨0, 0, 10⟩ 4 matCE) ⟨0, 0, 1⟩ ⟨0, 0, 0⟩ = some h ∧
      Vector.dot h.reflectDir (getNormal (Obj.sphere ⟨0, 0, 10⟩ 4 matCE) h.point) =
        -Vector.dot ⟨0, 0, 1⟩ (getNormal (Obj.sphere ⟨0, 0, 10⟩ 4 matCE) h.point)) := by
  constructor
  · have hsome : getIntersection (Obj.floor ⟨0, 16, 0⟩ matCE) ⟨0, 1, 0⟩ ⟨1, 0, 2⟩ =
        some ⟨⟨1, 16, 2⟩, ⟨0, -1, 0⟩, Obj.floor ⟨0, 16, 0⟩ matCE⟩ := by
      simp only [getIntersection, Vector.dot, Vector.multiply, Vector.add, Vector.sub,
        Vector.scale]
      norm_num
    exact ⟨_, hsome, reflection_law.1 _ _ _ _ _ hsome⟩
  · have hsome : getIntersection (Obj.sphere ⟨0, 0, 10⟩ 4 matCE) ⟨0, 0, 1⟩ ⟨0, 0, 0⟩ =
        some ⟨⟨0, 0, 8⟩, ⟨0, 0, -1⟩, Obj.sphere ⟨0, 0, 10⟩ 4 matCE⟩ := sphereHitEval
    exact ⟨_, hsome, reflection_law.2 _ _ _ _ _ _
      (by norm_num [Vector.dot, Vector.multiply]) (by norm_num) hsome⟩

/-- Witness for C8 at the concrete vector `(3, 4, 0)`. -/
theorem normalize_unit_and_idempotent_witness :
    Vector.length (⟨3, 4, 0⟩ : Vec3) ≠ 0 ∧
      Vector.length (Vector.normalize ⟨3, 4, 0⟩) = 1 := by
  have hne : Vector.length (⟨3, 4, 0⟩ : Vec3) ≠ 0 := by
    have : Vector.length (⟨3, 4, 0⟩ : Vec3) = 5 := by
      simp only [Vector.length]
      rw [show (3:ℝ) * 3 + 4 * 4 + 0 * 0 = 25 by norm_num, sqrt_twentyfive]
    rw [this]; norm_num
  exact ⟨hne, (normalize_unit_and_idempotent ⟨3, 4, 0⟩ hne).1⟩

/-- A returned hit carries the primitive it was produced by (Python returns
`self` in the triple). -/
theorem getIntersection_obj_eq (o : Obj) (dir org : Vec3) (h : Hit)
    (hs : getIntersection o dir org = some h) : h.obj = o := by
  cases o with
  | floor fo m =>
    simp only [getIntersection] at hs
    split_ifs at hs
    rw [Option.some.injEq] at hs
    rw [← hs]
  | sphere so r m =>
    simp only [getIntersection] at hs
    split_ifs at hs
    rw [Option.some.injEq] at hs
    rw [← hs]

/-- The fold underlying `nearest` picks an element of the candidate list. -/
theorem foldl_nearest_mem (org : Vec3) :
    ∀ (xs : List Hit) (acc : Hit),
      xs.foldl (fun best x =>
        if Vector.length (Vector.sub org x.point) <
            Vector.length (Vector.sub org best.point) then x else best) acc ∈ acc :: xs := by
  intro xs
  induction xs with
  | nil => intro acc; simp [List.foldl]
  | cons x xs ih =>
    intro acc
    simp only [List.foldl]
    rcases List.mem_cons.mp (ih (if Vector.length (Vector.sub org x.point) <
        Vector.length (Vector.sub org acc.point) then x else acc)) with h1 | h2
    · rw [h1]
      split_ifs
      · exact List.mem_cons_of_mem _ (List.mem_cons_self _ _)
      · exact List.mem_cons_self _ _
    · exact List.mem_cons_of_mem _ (List.mem_cons_of_mem _ h2)

/-- `nearest` returns an element of its input list. -/
theorem nearest_mem (org : Vec3) (l : List Hit) (h : Hit) (hn : nearest org l = some h) :
    h ∈ l := by
  cases l with
  | nil => simp [nearest] at hn
  | cons x xs =>
    simp only [nearest, Option.some.injEq] at hn
    rw [← hn]
    exact foldl_nearest_mem org xs x

/-- The object of a hit collected over the scene belongs to the scene. -/
theorem collectHits_obj_mem (objs : List Obj) (dir org : Vec3) (h : Hit)
    (hm : h ∈ collectHits objs dir org) : h.obj ∈ objs := by
  rcases List.mem_filterMap.mp (by simpa [collectHits] using hm) with ⟨o, ho, heq⟩
  rw [getIntersection_obj_eq o dir org h heq]
  exact ho

/-- Unfolding `bounceLoopE` when no object intersects the ray. -/
theorem bounceLoopE_succ_none (objs : List Obj) (lights : List Light) (rng : ℕ → ℝ)
    (res n : ℕ) (dir org : Vec3) (e : ℝ) (i : ℕ)
    (hn : nearest org (collectHits objs dir org) = none) :
    bounceLoopE objs lights rng res (n + 1) dir org e i = [] := by
  simp [bounceLoopE, hn]

/-- Unfolding `bounceLoopE` at the closest hit of one bounce. -/
theorem bounceLoopE_succ_some (objs : List Obj) (lights : List Light) (rng : ℕ → ℝ)
    (res n : ℕ) (dir org : Vec3) (e : ℝ) (i : ℕ) (hit : Hit)
    (hn : nearest org (collectHits objs dir org) = some hit) :
    bounceLoopE objs lights rng res (n + 1) dir org e i =
      ((pointColor objs lights rng res hit e i).1, e, hit.obj) ::
        bounceLoopE objs lights rng res n hit.reflectDir hit.point
          (e * hit.obj.reflectivity) (pointColor objs lights rng res hit e i).2 := by
  simp [bounceLoopE, hn]

/-- The instrumented bounce loop projects to the source bounce loop. -/
theorem bounceLoopE_fst (objs : List Obj) (lights : List Light) (rng : ℕ → ℝ) (res : ℕ) :
    ∀ (fuel : ℕ) (dir org : Vec3) (e : ℝ) (i : ℕ),
      (bounceLoopE objs lights rng res fuel dir org e i).map (fun t => t.1) =
        bounceLoop objs lights rng res fuel dir org e i := by
  intro fuel
  induction fuel with
  | zero => intro dir org e i; simp [bounceLoopE, bounceLoop]
  | succ n ih =>
    intro dir org e i
    simp only [bounceLoopE, bounceLoop]
    cases hn : nearest org (collectHits objs dir org) with
    | none => simp
    | some hit => simp [ih]

/-- The energy recorded at the k-th entry of the instrumented loop started
with energy `e` is `e` times the product of the reflectivities of the first
`k` objects hit. -/
theorem bounceLoopE_energy (objs : List Obj) (lights : List Light) (rng : ℕ → ℝ) (res : ℕ) :
    ∀ (fuel : ℕ) (dir org : Vec3) (e : ℝ) (i k : ℕ) (t : Vec3 × ℝ × Obj),
      (bounceLoopE objs lights rng res fuel dir org e i).get? k = some t →
      t.2.1 = e * (((bounceLoopE objs lights rng res fuel dir org e i).take k).map
        (fun u => u.2.2.reflectivity)).prod := by
  intro fuel
  induction fuel with
  | zero =>
    intro dir org e i k t ht
    simp [bounceLoopE] at ht
  | succ n ih =>
    intro dir org e i k t ht
    cases hn : nearest org (collectHits objs dir org) with
    | none =>
      rw [bounceLoopE_succ_none objs lights rng res n dir org e i hn] at ht
      simp at ht
    | some hit =>
      rw [bounceLoopE_succ_some objs lights rng res n dir org e i hit hn] at ht ⊢
      cases k with
      | zero =>
        simp only [List.get?_cons_zero, Option.some.injEq] at ht
        rw [← ht]
        simp
      | succ k' =>
        simp only [List.get?_cons_succ] at ht
        have hrec := ih hit.reflectDir hit.point (e * hit.obj.reflectivity)
          (pointColor objs lights rng res hit e i).2 k' t ht
        simp only [List.take_succ_cons, List.map_cons, List.prod_cons]
        rw [hrec]
        ring

/-- The first entry of a non-empty instrumented loop records the starting
energy. -/
theorem bounceLoopE_head_energy (objs : List Obj) (lights : List Light) (rng : ℕ → ℝ)
    (res : ℕ) (fuel : ℕ) (dir org : Vec3) (e : ℝ) (i : ℕ) (x : Vec3 × ℝ × Obj)
    (l : List (Vec3 × ℝ × Obj))
    (heq : bounceLoopE objs lights rng res fuel dir org e i = x :: l) : x.2.1 = e := by
  cases fuel with
  | zero => simp [bounceLoopE] at heq
  | succ n =>
    cases hn : nearest org (collectHits objs dir org) with
    | none =>
      rw [bounceLoopE_succ_none objs lights rng res n dir org e i hn] at heq
      exact absurd heq (by simp)
    | some hit =>
      rw [bounceLoopE_succ_some objs lights rng res n dir org e i hit hn] at heq
      rw [List.cons.injEq] at heq
      rw [← heq.1]

/-- Every entry of the instrumented loop records an object of the scene. -/
theorem bounceLoopE_obj_mem (objs : List Obj) (lights : List Light) (rng : ℕ → ℝ)
    (res : ℕ) :
    ∀ (fuel : ℕ) (dir org : Vec3) (e : ℝ) (i : ℕ) (t : Vec3 × ℝ × Obj),
      t ∈ bounceLoopE objs lights rng res fuel dir org e i → t.2.2 ∈ objs := by
  intro fuel
  induction fuel with
  | zero =>
    intro dir org e i t ht
    simp [bounceLoopE] at ht
  | succ n ih =>
    intro dir org e i t ht
    cases hn : nearest org (collectHits objs dir org) with
    | none =>
      rw [bounceLoopE_succ_none objs lights rng res n dir org e i hn] at ht
      simp at ht
    | some hit =>
      rw [bounceLoopE_succ_some objs lights rng res n dir org e i hit hn] at ht
      rcases List.mem_cons.mp ht with h1 | h2
      · rw [h1]
        exact collectHits_obj_mem objs dir org hit (nearest_mem org _ hit hn)
      · exact ih _ _ _ _ _ h2

/-- With all reflectivities in `[0, 1]` and a non-negative starting energy,
the recorded energies are non-increasing along the bounces. -/
theorem bounceLoopE_energy_chain (objs : List Obj) (lights : List Light) (rng : ℕ → ℝ)
    (res : ℕ) (hrefl : ∀ o ∈ objs, 0 ≤ Obj.reflectivity o ∧ Obj.reflectivity o ≤ 1) :
    ∀ (fuel : ℕ) (dir org : Vec3) (e : ℝ) (i : ℕ), 0 ≤ e →
      ((bounceLoopE objs lights rng res fuel dir org e i).map (fun t => t.2.1)).Chain'
        (fun xx yy => yy ≤ xx) := by
  intro fuel
  induction fuel with
  | zero =>
    intro dir org e i he
    simp [bounceLoopE]
  | succ n ih =>
    intro dir org e i he
    cases hn : nearest org (collectHits objs dir org) with
    | none =>
      rw [bounceLoopE_succ_none objs lights rng res n dir org e i hn]
      simp
    | some hit =>
      rw [bounceLoopE_succ_some objs lights rng res n dir org e i hit hn]
      have hobj : hit.obj ∈ objs := collectHits_obj_mem objs dir org hit (nearest_mem org _ hit hn)
      have he' : 0 ≤ e * hit.obj.reflectivity := mul_nonneg he (hrefl hit.obj hobj).1
      rw [List.map_cons, List.chain'_cons']
      refine ⟨?_, ih _ _ _ _ he'⟩
      intro b hb
      cases hrest : bounceLoopE objs lights rng res n hit.reflectDir hit.point
          (e * hit.obj.reflectivity) (pointColor objs lights rng res hit e i).2 with
      | nil =>
        rw [hrest] at hb
        simp at hb
      | cons x l =>
        rw [hrest] at hb
        simp only [List.map_cons, List.head?_cons, Option.mem_def, Option.some.injEq] at hb
        rw [← hb, bounceLoopE_head_energy objs lights rng res n hit.reflectDir hit.point
          (e * hit.obj.reflectivity) (pointColor objs lights rng res hit e i).2 x l hrest]
        show e * hit.obj.reflectivity ≤ e
        calc e * hit.obj.reflectivity ≤ e * 1 :=
              mul_le_mul_of_nonneg_left (hrefl hit.obj hobj).2 he
          _ = e := mul_one e

/-- C5: starting from `ray_energy = 1.0`, the energy used at the (k+1)-th
bounce equals the product of the reflectivities of the first `k` surfaces
hit, and (under the data-model invariant `reflectivity ∈ [0, 1]`) the
sequence of energies is monotonically non-increasing.  The instrumented
loop is tied to the source loop by its first conjunct. -/
theorem energy_decay (objs : List Obj) (lights : List Light) (rng : ℕ → ℝ)
    (res fuel : ℕ) (dir org : Vec3) (i : ℕ) :
    ((bounceLoopE objs lights rng res fuel dir org 1 i).map (fun t => t.1) =
      bounceLoop objs lights rng res fuel dir org 1 i) ∧
    (∀ (k : ℕ) (t : Vec3 × ℝ × Obj),
      (bounceLoopE objs lights rng res fuel dir org 1 i).get? k = some t →
      t.2.1 = (((bounceLoopE objs lights rng res fuel dir org 1 i).take k).map
        (fun u => u.2.2.reflectivity)).prod) ∧
    ((∀ o ∈ objs, 0 ≤ Obj.reflectivity o ∧ Obj.reflectivity o ≤ 1) →
      ((bounceLoopE objs lights rng res fuel dir org 1 i).map (fun t => t.2.1)).Chain'
        (fun xx yy => yy ≤ xx)) := by
  refine ⟨bounceLoopE_fst objs lights rng res fuel dir org 1 i, ?_, ?_⟩
  · intro k t ht
    rw [bounceLoopE_energy objs lights rng res fuel dir org 1 i k t ht, one_mul]
  · intro hrefl
    exact bounceLoopE_energy_chain objs lights rng res hrefl fuel dir org 1 i zero_le_one

/-- Witness for C5 on a concrete one-floor scene with no lights: the single
recorded bounce uses energy 1 = the empty product of reflectivities. -/
theorem energy_decay_witness :
    (bounceLoopE [Obj.floor ⟨0, 16, 0⟩ matCE] [] (fun _ => 0) 1 2
      ⟨0, 1, 0⟩ ⟨0, 0, 0⟩ 1 0).get? 0 =
        some (⟨0, 0, 0⟩, 1, Obj.floor ⟨0, 16, 0⟩ matCE) ∧
    ((⟨0, 0, 0⟩, (1 : ℝ), Obj.floor ⟨0, 16, 0⟩ matCE) : Vec3 × ℝ × Obj).2.1 =
      (((bounceLoopE [Obj.floor ⟨0, 16, 0⟩ matCE] [] (fun _ => 0) 1 2
        ⟨0, 1, 0⟩ ⟨0, 0, 0⟩ 1 0).take 0).map (fun u => u.2.2.reflectivity)).prod := by
  have hhit : getIntersection (Obj.floor ⟨0, 16, 0⟩ matCE) ⟨0, 1, 0⟩ ⟨0, 0, 0⟩ =
      some ⟨⟨0, 16, 0⟩, ⟨0, -1, 0⟩, Obj.floor ⟨0, 16, 0⟩ matCE⟩ := by
    norm_num [getIntersection, Vector.dot, Vector.multiply, Vector.add, Vector.sub,
      Vector.scale]
  have hmiss : getIntersection (Obj.floor ⟨0, 16, 0⟩ matCE) ⟨0, -1, 0⟩ ⟨0, 16, 0⟩ = none := by
    norm_num [getIntersection, Vector.dot, Vector.multiply]
  have hn1 : nearest (⟨0, 0, 0⟩ : Vec3)
      (collectHits [Obj.floor ⟨0, 16, 0⟩ matCE] ⟨0, 1, 0⟩ ⟨0, 0, 0⟩) =
      some ⟨⟨0, 16, 0⟩, ⟨0, -1, 0⟩, Obj.floor ⟨0, 16, 0⟩ matCE⟩ := by
    rw [show collectHits [Obj.floor ⟨0, 16, 0⟩ matCE] ⟨0, 1, 0⟩ ⟨0, 0, 0⟩ =
      [⟨⟨0, 16, 0⟩, ⟨0, -1, 0⟩, Obj.floor ⟨0, 16, 0⟩ matCE⟩] from by
        simp [collectHits, hhit]]
    simp [nearest]
  have hn2 : nearest (⟨0, 16, 0⟩ : Vec3)
      (collectHits [Obj.floor ⟨0, 16, 0⟩ matCE] ⟨0, -1, 0⟩ ⟨0, 16, 0⟩) = none := by
    rw [show collectHits [Obj.floor ⟨0, 16, 0⟩ matCE] ⟨0, -1, 0⟩ ⟨0, 16, 0⟩ = [] from by
      simp [collectHits, hmiss]]
    simp [nearest]
  have hlist : bounceLoopE [Obj.floor ⟨0, 16, 0⟩ matCE] [] (fun _ => 0) 1 2
      ⟨0, 1, 0⟩ ⟨0, 0, 0⟩ 1 0 =
      [(⟨0, 0, 0⟩, 1, Obj.floor ⟨0, 16, 0⟩ matCE)] := by
    rw [show (2 : ℕ) = 1 + 1 from rfl,
      bounceLoopE_succ_some [Obj.floor ⟨0, 16, 0⟩ matCE] [] (fun _ => 0) 1 1
        ⟨0, 1, 0⟩ ⟨0, 0, 0⟩ 1 0 ⟨⟨0, 16, 0⟩, ⟨0, -1, 0⟩, Obj.floor ⟨0, 16, 0⟩ matCE⟩ hn1]
    rw [show (1 : ℕ) = 0 + 1 from rfl,
      bounceLoopE_succ_none [Obj.floor ⟨0, 16, 0⟩ matCE] [] (fun _ => 0) 1 0
        ⟨0, -1, 0⟩ ⟨0, 16, 0⟩ _ _ hn2]
    simp [pointColor, pointColorAux]
  have hget : (bounceLoopE [Obj.floor ⟨0, 16, 0⟩ matCE] [] (fun _ => 0) 1 2
      ⟨0, 1, 0⟩ ⟨0, 0, 0⟩ 1 0).get? 0 =
        some (⟨0, 0, 0⟩, 1, Obj.floor ⟨0, 16, 0⟩ matCE) := by
    rw [hlist]
    rfl
  exact ⟨hget, (energy_decay [Obj.floor ⟨0, 16, 0⟩ matCE] [] (fun _ => 0) 1 2
    ⟨0, 1, 0⟩ ⟨0, 0, 0⟩ 0).2.1 0 _ hget⟩

end Raytracer
